import Mathlib

/-!
Verification development for the content pipeline of this repository:
the model-response parser and PDF-filename derivation of
`.github/workflows/scripts/generate_content.py`, and the dashboard merger of
`scripts/update_dashboard.py`.

Python strings are modeled as `List Char`.  Python's regular-expression
searches are embedded by their operational meaning on the concrete patterns
appearing in the source (leftmost match, greedy quantifiers with
backtracking), restricted to ASCII case folding and the ASCII whitespace
set `space, tab, newline, carriage return, form feed, vertical tab`
(Python's `\s`, `\w`, `IGNORECASE` additionally cover exotic Unicode
characters; every concrete input used below is ASCII, where the two agree).
-/

/-- Python's `\s` class (ASCII part): space, tab, newline, CR, FF, VT. -/
def isPySpace (c : Char) : Bool :=
  c = ' ' || c = '\t' || c = '\n' || c = '\r' || c = '\x0c' || c = '\x0b'

/-- ASCII lower-case letter test, via code points. -/
def isAsciiLower (c : Char) : Bool := 97 ≤ c.toNat && c.toNat ≤ 122

/-- ASCII upper-case letter test, via code points. -/
def isAsciiUpper (c : Char) : Bool := 65 ≤ c.toNat && c.toNat ≤ 90

/-- ASCII digit test (Python's `\d`, ASCII part). -/
def isDigitCh (c : Char) : Bool := 48 ≤ c.toNat && c.toNat ≤ 57

/-- Python's `\w` class (ASCII part): letters, digits, underscore. -/
def isWordChar (c : Char) : Bool :=
  isAsciiLower c || isAsciiUpper c || isDigitCh c || c = '_'

/-- Python `str.upper` on one character (ASCII part). -/
def pyToUpper (c : Char) : Char :=
  if isAsciiLower c then Char.ofNat (c.toNat - 32) else c

/-- Python `str.lower` on one character (ASCII part), used for `IGNORECASE`. -/
def pyToLower (c : Char) : Char :=
  if isAsciiUpper c then Char.ofNat (c.toNat + 32) else c

/-- Exact list-of-characters prefix test (Python `str.startswith`). -/
def startsWithL : List Char → List Char → Bool
  | [], _ => true
  | _ :: _, [] => false
  | a :: as, b :: bs => a = b && startsWithL as bs

/-- Exact suffix test (Python `str.endswith`). -/
def endsWithL (p s : List Char) : Bool := startsWithL p.reverse s.reverse

/-- Case-insensitive (ASCII) prefix test, modeling `re.IGNORECASE` matching
of a literal pattern fragment at one position. -/
def ciStarts : List Char → List Char → Bool
  | [], _ => true
  | _ :: _, [] => false
  | a :: as, b :: bs => pyToLower a = pyToLower b && ciStarts as bs

/-- Whether `sep` occurs (as a contiguous block) anywhere in `s`. -/
def hasSeq (sep : List Char) : List Char → Bool
  | [] => sep.isEmpty
  | c :: cs => startsWithL sep (c :: cs) || hasSeq sep cs

/-- Python `str.lstrip()` (whitespace). -/
def pyLstrip (l : List Char) : List Char := l.dropWhile isPySpace

/-- Python `str.rstrip()` (whitespace). -/
def pyRstrip (l : List Char) : List Char := (l.reverse.dropWhile isPySpace).reverse

/-- Python `str.strip()` (whitespace both ends). -/
def pyStrip (l : List Char) : List Char := pyRstrip (pyLstrip l)

/-- Python `str.rstrip(",")`. -/
def pyRstripComma (l : List Char) : List Char :=
  (l.reverse.dropWhile (fun c => c = ',')).reverse

/-- Decimal digit character for a value below ten. -/
def digitChar : Nat → Char
  | 0 => '0' | 1 => '1' | 2 => '2' | 3 => '3' | 4 => '4'
  | 5 => '5' | 6 => '6' | 7 => '7' | 8 => '8' | 9 => '9'
  | _ => '0'

/-- Decimal rendering of a natural number, fuel-driven so that it is
structurally recursive (the fuel is always ample). -/
def natStrF : Nat → Nat → List Char
  | 0, _ => []
  | f + 1, n => if n < 10 then [digitChar n] else natStrF f (n / 10) ++ [digitChar (n % 10)]

/-- Decimal rendering of a natural number (Python `str` on a nonnegative int). -/
def natStr (n : Nat) : List Char := natStrF (n + 1) n

/-- Python `str` on an int. -/
def intStr (n : Int) : List Char :=
  if n < 0 then '-' :: natStr n.natAbs else natStr n.natAbs

/-- Python `str.split(sep)` for a nonempty separator, fuel-driven
(each step consumes at least one character, so `length + 1` fuel is ample).
For an empty separator Python raises; this total model returns `[s]` there,
a case never exercised. -/
def pySplitF (sep : List Char) : Nat → List Char → List (List Char)
  | 0, s => [s]
  | _ + 1, [] => [[]]
  | f + 1, c :: cs =>
    if !sep.isEmpty && startsWithL sep (c :: cs) then
      [] :: pySplitF sep f (cs.drop (sep.length - 1))
    else
      (pySplitF sep f cs).modifyHead (fun p => c :: p)

/-- Python `str.split(sep)`. -/
def pySplit (sep s : List Char) : List (List Char) := pySplitF sep (s.length + 1) s

/-- Python `str.replace(old, new)` for nonempty `old`: left-to-right,
non-overlapping replacement of every occurrence.  Fuel-driven
(`length + 1` is ample).  For empty `old` this model is the identity,
a case never exercised. -/
def pyReplaceAllF (pat repl : List Char) : Nat → List Char → List Char
  | 0, s => s
  | _ + 1, [] => []
  | f + 1, c :: cs =>
    if !pat.isEmpty && startsWithL pat (c :: cs) then
      repl ++ pyReplaceAllF pat repl f (cs.drop (pat.length - 1))
    else
      c :: pyReplaceAllF pat repl f cs

/-- Python `str.replace(old, new)`. -/
def pyReplaceAll (pat repl s : List Char) : List Char :=
  pyReplaceAllF pat repl (s.length + 1) s

/-- Split a character list at every comma (observer used to talk about the
entries of the embedded JavaScript object literals). -/
def splitComma : List Char → List (List Char)
  | [] => [[]]
  | c :: cs =>
    if c = ',' then [] :: splitComma cs
    else (splitComma cs).modifyHead (fun p => c :: p)

/-- The entries of a comma-separated body: comma-split, whitespace-trimmed,
with blank segments dropped. -/
def entriesOf (l : List Char) : List (List Char) :=
  ((splitComma l).map pyStrip).filter (fun e => !e.isEmpty)

/-- Interleave a separator between parts (used to state frame properties of
`pyReplaceAll`). -/
def joinParts (sep : List Char) : List (List Char) → List Char
  | [] => []
  | [p] => p
  | p :: q :: ps => p ++ sep ++ joinParts sep (q :: ps)

/-- Append `w` to the last part (how a separator-free suffix extends the
last segment of a split). -/
def appendLast (w : List Char) : List (List Char) → List (List Char)
  | [] => [w]
  | [p] => [p ++ w]
  | p :: q :: ps => p :: appendLast w (q :: ps)

/-- Python `',\n'.join(entries)` (update_dashboard.py 157 and 189). -/
def joinEntries : List (List Char) → List Char
  | [] => []
  | [e] => e
  | e :: f :: rest => e ++ ',' :: '\n' :: joinEntries (f :: rest)

/-!  ### The response parser (`parse_claude_response`, generate_content.py 173-233)

Each field is located by `re.search` with the concrete pattern from the
source.  The search functions below scan positions left to right; at a
position where the (case-insensitive) label matches, the rest of the
pattern is attempted with the greedy/backtracking semantics worked out for
that concrete pattern, and on failure the scan continues at later
positions, exactly as `re.search` does. -/

/-- The group captured by `\s*(.+)` (no DOTALL) against the text `t` that
follows a matched label: greedy `\s*` stops at the first non-whitespace
character and `(.+)` then captures to the end of that line; when `t` is
whitespace-only, backtracking makes `(.+)` capture exactly the last
character of `t` that is not a newline, and the match fails when no such
character exists. -/
def dotPlusGroup (t : List Char) : Option (List Char) :=
  let r := t.dropWhile isPySpace
  if r.isEmpty then
    match (t.filter (fun c => !(c = '\n'))).getLast? with
    | some c => some [c]
    | none => none
  else
    some (r.takeWhile (fun c => !(c = '\n')))

/-- `re.search(label + r":\s*(.+)", s, re.IGNORECASE)`, returning group 1. -/
def searchLabelLine (label : List Char) : List Char → Option (List Char)
  | [] => none
  | c :: cs =>
    if ciStarts label (c :: cs) then
      match dotPlusGroup ((c :: cs).drop label.length) with
      | some g => some g
      | none => searchLabelLine label cs
    else searchLabelLine label cs

/-- Numeric value of a run of decimal digits (Python `int` on the group). -/
def digitsVal (ds : List Char) : Nat := ds.foldl (fun a c => 10 * a + (c.toNat - 48)) 0

/-- `re.search(r"DAY:\s*(\d+)", s, re.IGNORECASE)`: after the label and the
greedy whitespace run there must be at least one digit (backtracking into
the whitespace run cannot produce a digit), and the group is the maximal
digit run. -/
def searchDay : List Char → Option Nat
  | [] => none
  | c :: cs =>
    if ciStarts ("DAY:".toList) (c :: cs) then
      let ds := (((c :: cs).drop 4).dropWhile isPySpace).takeWhile isDigitCh
      if ds.isEmpty then searchDay cs else some (digitsVal ds)
    else searchDay cs

/-- `re.search(r"PASSWORD:\s*(\w+)", s, re.IGNORECASE)`: like `searchDay`
with word characters in place of digits. -/
def searchPassword : List Char → Option (List Char)
  | [] => none
  | c :: cs =>
    if ciStarts ("PASSWORD:".toList) (c :: cs) then
      let w := (((c :: cs).drop 9).dropWhile isPySpace).takeWhile isWordChar
      if w.isEmpty then searchPassword cs else some w
    else searchPassword cs

/-- The group captured by `\s*(.+)` with `re.DOTALL` against the text `t`
after the label: `(.+)` now also crosses newlines, so the group is
everything after the greedy whitespace run, the last character of `t`
when `t` is whitespace-only and nonempty, and the match fails only for
empty `t`. -/
def fcGroup (t : List Char) : List Char :=
  let r := t.dropWhile isPySpace
  if r.isEmpty then [t.getLastD ' '] else r

/-- `re.search(r"FULL_CONTENT:\s*(.+)", s, re.IGNORECASE | re.DOTALL)`. -/
def searchFullContent : List Char → Option (List Char)
  | [] => none
  | c :: cs =>
    if ciStarts ("FULL_CONTENT:".toList) (c :: cs) then
      let t := (c :: cs).drop 13
      if t.isEmpty then searchFullContent cs else some (fcGroup t)
    else searchFullContent cs

/-- The text after the first case-insensitive occurrence of `label` in `s`
(an observer used to state claims about label-relative extraction). -/
def firstLabelTail (label : List Char) : List Char → Option (List Char)
  | [] => none
  | c :: cs =>
    if ciStarts label (c :: cs) then some ((c :: cs).drop label.length)
    else firstLabelTail label cs

/-- One parsed resource record (generate_content.py 186-227; the same shape
is read back from `new_content.json` by update_dashboard.py). -/
structure Resource where
  day : Int
  category : List Char
  title : List Char
  hook : List Char
  description : List Char
  key_points : List (List Char)
  password : List Char
  full_content : List Char
deriving Repr, DecidableEq, Inhabited

/-- The `---` section delimiter. -/
def dashDelim : List Char := "---".toList

/-- `category` field (line 196-197): first match stripped, default `"Career"`. -/
def categoryOf (s : List Char) : List Char :=
  match searchLabelLine ("CATEGORY:".toList) s with
  | some g => pyStrip g
  | none => "Career".toList

/-- `title` field (line 199-200): first match stripped, default `"Untitled"`. -/
def titleOf (s : List Char) : List Char :=
  match searchLabelLine ("TITLE:".toList) s with
  | some g => pyStrip g
  | none => "Untitled".toList

/-- `hook` field (line 202-203). -/
def hookOf (s : List Char) : List Char :=
  match searchLabelLine ("HOOK:".toList) s with
  | some g => pyStrip g
  | none => []

/-- `description` field (line 205-206). -/
def descriptionOf (s : List Char) : List Char :=
  match searchLabelLine ("DESCRIPTION:".toList) s with
  | some g => pyStrip g
  | none => []

/-- `key_points` (lines 209-214): the stripped matches of
`KEY_POINT_1..3`, kept in index order, absent ones skipped. -/
def keyPointsOf (s : List Char) : List (List Char) :=
  [searchLabelLine ("KEY_POINT_1:".toList) s,
   searchLabelLine ("KEY_POINT_2:".toList) s,
   searchLabelLine ("KEY_POINT_3:".toList) s].filterMap (fun o => o.map pyStrip)

/-- `password` (lines 216-217): the first `\w+` token upper-cased,
default `"ACCESS"`. -/
def passwordOf (s : List Char) : List Char :=
  match searchPassword s with
  | some w => w.map pyToUpper
  | none => "ACCESS".toList

/-- The sentinel stored when no `FULL_CONTENT` match exists (line 227). -/
def sentinelFC : List Char := "Content not found.".toList

/-- `full_content` (lines 220-227): group 1 stripped, then cut at the next
`---` (`split('---')[0]`), stripped again; the sentinel when there is no
match. -/
def fullContentOf (s : List Char) : List Char :=
  match searchFullContent s with
  | some g => pyStrip ((pySplit dashDelim (pyStrip g)).headD [])
  | none => sentinelFC

/-- One iteration of the parsing loop body (lines 186-227) on a nonblank
section: builds the record and threads the fallback day counter, which is
consumed and incremented exactly when the `DAY` search fails. -/
def parseSection (s : List Char) (day_counter : Int) : Resource × Int :=
  match searchDay s with
  | some n =>
    (⟨(n : Int), categoryOf s, titleOf s, hookOf s, descriptionOf s,
      keyPointsOf s, passwordOf s, fullContentOf s⟩, day_counter)
  | none =>
    (⟨day_counter, categoryOf s, titleOf s, hookOf s, descriptionOf s,
      keyPointsOf s, passwordOf s, fullContentOf s⟩, day_counter + 1)

/-- The acceptance test of line 230: Python truthiness of the `title` and
`full_content` strings, i.e. both nonempty. -/
def acceptB (r : Resource) : Bool := !r.title.isEmpty && !r.full_content.isEmpty

/-- The parsing loop (lines 182-231): blank sections are skipped without
consuming the day counter; each nonblank section is parsed, the counter
threaded on, and the record kept only when it passes `acceptB`. -/
def parseSections : List (List Char) → Int → List Resource
  | [], _ => []
  | s :: rest, dc =>
    if (pyStrip s).isEmpty then parseSections rest dc
    else
      let p := parseSection s dc
      if acceptB p.1 then p.1 :: parseSections rest p.2
      else parseSections rest p.2

/-- Like `parseSections` but without the acceptance filter: the records of
all nonblank sections, counter threaded identically (observer used to
state which records the filter drops). -/
def parseSectionsAll : List (List Char) → Int → List Resource
  | [], _ => []
  | s :: rest, dc =>
    if (pyStrip s).isEmpty then parseSectionsAll rest dc
    else
      let p := parseSection s dc
      p.1 :: parseSectionsAll rest p.2

/-- `parse_claude_response(content, start_day)` (lines 173-233). -/
def parse_claude_response (content : List Char) (start_day : Int) : List Resource :=
  parseSections (pySplit dashDelim content) start_day

/-- The nonblank sections of the input, in order. -/
def nonblankSections (content : List Char) : List (List Char) :=
  (pySplit dashDelim content).filter (fun s => !(pyStrip s).isEmpty)

/-!  ### PDF filename derivations (generate_content.py 238, update_dashboard.py 185) -/

/-- The filename computed by `create_professional_pdf` (generate_content.py
line 238): `f"Day_{day}_{title.replace(' ', '_').replace('/', '_')}.pdf"`.
The rest of that function drives an external PDF-rendering library and is
out of scope. -/
def create_professional_pdf_filename (day : Int) (title : List Char) : List Char :=
  "Day_".toList ++ intStr day ++ "_".toList
    ++ pyReplaceAll (['/']) (['_']) (pyReplaceAll ([' ']) (['_']) title)
    ++ ".pdf".toList

/-- The filename entered into the dashboard `pdfFiles` table by
`update_pdf_paths_js` (update_dashboard.py line 185):
`f"Day_{day}_{title.replace(' ', '_').replace('/', '_')}.pdf"`. -/
def update_pdf_paths_filename (day : Int) (title : List Char) : List Char :=
  "Day_".toList ++ intStr day ++ "_".toList
    ++ pyReplaceAll (['/']) (['_']) (pyReplaceAll ([' ']) (['_']) title)
    ++ ".pdf".toList

/-!  ### Day cards (`create_card_html`, update_dashboard.py 87-134) -/

/-- The fixed gradient list (update_dashboard.py 96-107). -/
def gradients : List (List Char) :=
  ["linear-gradient(135deg, #ff006e, #8338ec)".toList,
   "linear-gradient(135deg, #8338ec, #00f2ea)".toList,
   "linear-gradient(135deg, #00f2ea, #3a86ff)".toList,
   "linear-gradient(135deg, #3a86ff, #ff006e)".toList,
   "linear-gradient(135deg, #ff006e, #fb5607)".toList,
   "linear-gradient(135deg, #fb5607, #ffbe0b)".toList,
   "linear-gradient(135deg, #ffbe0b, #00f2ea)".toList,
   "linear-gradient(135deg, #00f2ea, #8338ec)".toList,
   "linear-gradient(135deg, #8338ec, #ff006e)".toList,
   "linear-gradient(135deg, #ff006e, #3a86ff)".toList]

/-- The accent selected for a given day number, as the claim states it:
the element at index `(day - 1) mod 10` of the fixed gradient list
(Lean's `Int` `%` agrees with Python's `%` for a positive modulus). -/
def specGradient (day : Int) : List Char :=
  gradients.getD (((day - 1) % 10).toNat) []

/-- The card text of `create_card_html` before the gradient interpolation
of line 118 (update_dashboard.py 115-118). -/
def cardPre (r : Resource) : List Char :=
  "\n                <!-- Day ".toList ++ intStr r.day
  ++ " -->\n                <div class=\x22day-card\x22>\n                    <div class=\x22day-card-image\x22 style=\x22".toList

/-- The card text of `create_card_html` after the gradient interpolation
of line 118 (update_dashboard.py 118-132), with `key_points_html` built as
in lines 91-93. -/
def cardPost (r : Resource) : List Char :=
  let key_points_html :=
    (r.key_points.map (fun p => "                <li>".toList ++ p ++ "</li>\n".toList)).flatten
  "\x22>\n                        <div class=\x22day-number-overlay\x22>Day ".toList
  ++ intStr r.day
  ++ "</div>\n                    </div>\n                    <div class=\x22day-card-content\x22>\n                        <span class=\x22day-badge\x22>Day ".toList
  ++ intStr r.day ++ " • ".toList ++ r.category
  ++ "</span>\n                        <h3 class=\x22day-title\x22>".toList ++ r.title
  ++ "</h3>\n                        <p class=\x22day-description\x22>".toList ++ r.hook
  ++ "</p>\n                        <ul class=\x22day-points\x22>\n".toList
  ++ key_points_html
  ++ "                        </ul>\n                        <button class=\x22download-btn locked-btn\x22 onclick=\x22showPasswordModal(\x27day".toList
  ++ intStr r.day ++ "\x27, \x27".toList ++ r.title
  ++ "\x27)\x22>\n                            🔒 Unlock Day ".toList ++ intStr r.day
  ++ " PDF\n                        </button>\n                    </div>\n                </div>\n".toList

/-- `create_card_html(resource)` (update_dashboard.py 87-134): the card
fragment, with the gradient chosen by `gradients[(day - 1) % len(gradients)]`
(line 109) interpolated into `style="background: {gradient};"`.  The dead
local `image_src` of line 113 is not used by the produced HTML and is
omitted. -/
def create_card_html (r : Resource) : List Char :=
  let gradient := gradients.getD (((r.day - 1) % (gradients.length : Int)).toNat) []
  cardPre r ++ "background: ".toList ++ gradient ++ ";".toList ++ cardPost r

/-!  ### The two keyed-table updaters (update_dashboard.py 136-197) -/

/-- Split at the first closing brace: the run of non-brace characters
(the regex group `[^}]+` is exactly this run when nonempty) and the text
after that brace. -/
def splitAtFirstBrace : List Char → Option (List Char × List Char)
  | [] => none
  | c :: cs =>
    if c = '\x7d' then some ([], cs)
    else
      match splitAtFirstBrace cs with
      | some p => some (c :: p.1, p.2)
      | none => none

/-- `re.search(key + r"\{([^}]+)\};", html, re.DOTALL)` for a literal `key`,
returning group 1: at each position where `key` followed by the opening
brace matches, `[^}]+` can only reach the first closing brace, which must
be immediately followed by a semicolon and preceded by at least one
character; otherwise the scan moves on. -/
def reSearchObj (key : List Char) : List Char → Option (List Char)
  | [] => none
  | c :: cs =>
    if startsWithL key (c :: cs) then
      match splitAtFirstBrace ((c :: cs).drop key.length) with
      | some p =>
        if !p.1.isEmpty && p.2.headD ' ' = ';' then some p.1
        else reSearchObj key cs
      | none => reSearchObj key cs
    else reSearchObj key cs

/-- The literal prefix matched for the `passwords` table
(pattern `const passwords = \{([^}]+)\};`, update_dashboard.py 140). -/
def pwKeyStr : List Char := "const passwords = \x7b".toList

/-- The literal prefix matched for the `pdfFiles` table
(pattern `const pdfFiles = \{([^}]+)\};`, update_dashboard.py 171). -/
def pdfKeyStr : List Char := "const pdfFiles = \x7b".toList

/-- One new `passwords` entry line (update_dashboard.py 152-154):
`f"            {day_key}: '{password}'"`, without its 12-space indent. -/
def pwEntryCore (r : Resource) : List Char :=
  "day".toList ++ intStr r.day ++ ": \x27".toList ++ r.password ++ "\x27".toList

/-- One new `passwords` entry line with its indent. -/
def pwEntryLine (r : Resource) : List Char := "            ".toList ++ pwEntryCore r

/-- One new `pdfFiles` entry line (update_dashboard.py 183-186), without
its indent: `f"            {day_key}: '{pdf_filename}'"`. -/
def pdfEntryCore (r : Resource) : List Char :=
  "day".toList ++ intStr r.day ++ ": \x27".toList
    ++ update_pdf_paths_filename r.day r.title ++ "\x27".toList

/-- One new `pdfFiles` entry line with its indent. -/
def pdfEntryLine (r : Resource) : List Char := "            ".toList ++ pdfEntryCore r

/-- The rebuilt body of the `passwords` literal (update_dashboard.py 157):
`current.rstrip().rstrip(',') + ',\n' + ',\n'.join(new_entries)`. -/
def pwUpdatedInner (current : List Char) (rs : List Resource) : List Char :=
  pyRstripComma (pyRstrip current) ++ ",\n".toList ++ joinEntries (rs.map pwEntryLine)

/-- The rebuilt body of the `pdfFiles` literal (update_dashboard.py 189). -/
def pdfUpdatedInner (current : List Char) (rs : List Resource) : List Char :=
  pyRstripComma (pyRstrip current) ++ ",\n".toList ++ joinEntries (rs.map pdfEntryLine)

/-- The replaced occurrence text `"const passwords = {" + current + "}"`
(update_dashboard.py 161). -/
def pwTarget (current : List Char) : List Char := pwKeyStr ++ current ++ ['\x7d']

/-- Its replacement `"const passwords = {\n" + updated + "\n        }"`
(update_dashboard.py 162). -/
def pwReplacementText (current : List Char) (rs : List Resource) : List Char :=
  pwKeyStr ++ '\n' :: pwUpdatedInner current rs ++ "\n        \x7d".toList

/-- The replaced occurrence text for `pdfFiles` (update_dashboard.py 193). -/
def pdfTarget (current : List Char) : List Char := pdfKeyStr ++ current ++ ['\x7d']

/-- Its replacement (update_dashboard.py 194). -/
def pdfReplacementText (current : List Char) (rs : List Resource) : List Char :=
  pdfKeyStr ++ '\n' :: pdfUpdatedInner current rs ++ "\n        \x7d".toList

/-- `update_passwords_js(html_content, resources)` (update_dashboard.py
136-165): find the `passwords` object literal; when absent return the
document unchanged (a logged warning in the source), otherwise rebuild the
body and `str.replace` the literal text. -/
def update_passwords_js (html : List Char) (rs : List Resource) : List Char :=
  match reSearchObj pwKeyStr html with
  | none => html
  | some current => pyReplaceAll (pwTarget current) (pwReplacementText current rs) html

/-- `update_pdf_paths_js(html_content, resources)` (update_dashboard.py
167-197), analogous to `update_passwords_js`. -/
def update_pdf_paths_js (html : List Char) (rs : List Resource) : List Char :=
  match reSearchObj pdfKeyStr html with
  | none => html
  | some current => pyReplaceAll (pdfTarget current) (pdfReplacementText current rs) html

/-!  ### `update_dashboard` (update_dashboard.py 11-85)

The two files it touches are modeled as an explicit state; the
BeautifulSoup operations (parsing, the `.days-grid` lookup, card
appending, the `str`/re-parse round trip and `prettify`) are external
library calls and enter the model as function parameters. -/

/-- The files read and written by `update_dashboard`: the parsed
`new_content.json` resource list and the `index.html` text (`none` models a
missing file, the `FileNotFoundError` branches). -/
structure DashFS where
  new_content : Option (List Resource)
  index_html : Option (List Char)
deriving Repr, DecidableEq

/-- `update_dashboard()` (update_dashboard.py 11-85).  `findDaysGrid`
models `soup.find('div', class_='days-grid')` returning a hit or not;
`strAfterCards` models parsing, appending the cards of every resource and
re-serializing (lines 39-62); `roundTrip` models the
`str(BeautifulSoup(...))` round trip between the two table updates (line
63); `prettifyStr` models `str(soup.prettify())` of line 76.  Returns the
printed success flag and the resulting file state; every failure branch
returns `false` before the single write of lines 75-76. -/
def update_dashboard (findDaysGrid : List Char → Bool)
    (strAfterCards : List Char → List Resource → List Char)
    (roundTrip : List Char → List Char) (prettifyStr : List Char → List Char)
    (fs : DashFS) : Bool × DashFS :=
  match fs.new_content with
  | none => (false, fs)
  | some rs =>
    match fs.index_html with
    | none => (false, fs)
    | some html =>
      if findDaysGrid html then
        let t1 := strAfterCards html rs
        let t2 := update_passwords_js t1 rs
        let t3 := roundTrip t2
        let t4 := update_pdf_paths_js t3 rs
        (true, ⟨some rs, some (prettifyStr t4)⟩)
      else (false, fs)

/-!  ### Concrete inputs used by witnesses and counterexamples -/

/-- A section with a title but no `FULL_CONTENT` label. -/
def demoNoFC : List Char := "TITLE: A".toList

/-- Two sections: an explicit `DAY: 11` and one with no `DAY` field. -/
def demoCollide : List Char :=
  "DAY: 11\nTITLE: A\nFULL_CONTENT: x\n---\nTITLE: B\nFULL_CONTENT: y".toList

/-- A section whose `FULL_CONTENT:` label is the last text of the section. -/
def demoFCEnd : List Char := "TITLE: A\nFULL_CONTENT:".toList

/-- A section with content after the `FULL_CONTENT:` label. -/
def demoFCHi : List Char := "FULL_CONTENT: hi".toList

/-- A section carrying a lower-case password token. -/
def demoPw : List Char := "TITLE: A\nPASSWORD: hello".toList

/-- A document whose `passwords` literal holds one entry. -/
def demoPwDoc : List Char :=
  "<script>const passwords = \x7b\n            day10: \x27FOCUS\x27\n        \x7d;</script>".toList

/-- A document containing the same `passwords` literal text twice. -/
def demoTwice : List Char :=
  "const passwords = \x7ba\x7d;const passwords = \x7ba\x7d;".toList

/-- A document with both object literals. -/
def demoBothDoc : List Char :=
  "const passwords = \x7bx\x7d; const pdfFiles = \x7by\x7d;".toList

/-- A document with neither object literal. -/
def demoPlainDoc : List Char := "<p>hello</p>".toList

/-- A resource record with the given day, title and password and empty
remaining fields. -/
def mkRes (d : Int) (ti pw : List Char) : Resource := ⟨d, [], ti, [], [], [], pw, []⟩

/-- Day-11 demo resource. -/
def res11 : Resource := mkRes 11 ("Ask For More".toList) ("FOCUS11".toList)

/-- Day-12 demo resource. -/
def res12 : Resource := mkRes 12 ("Mirror Tactic".toList) ("PW12".toList)

/-!  ## Theorems -/

/-- `parseSections` is `parseSectionsAll` followed by the acceptance
filter of line 230. -/
theorem parseSections_eq_filter :
    ∀ (ss : List (List Char)) (dc : Int),
      parseSections ss dc = (parseSectionsAll ss dc).filter acceptB := by
  intro ss
  induction ss with
  | nil => intro dc; rfl
  | cons s rest ih =>
    intro dc
    by_cases hb : (pyStrip s).isEmpty
    · simp [parseSections, parseSectionsAll, hb, ih]
    · by_cases ha : acceptB (parseSection s dc).1
      · simp [parseSections, parseSectionsAll, hb, ha, ih, List.filter_cons]
      · simp [parseSections, parseSectionsAll, hb, ha, ih, List.filter_cons]

/-- C2: the PDF filename computed when the PDF is generated
(`create_professional_pdf`, generate_content.py 238) and the filename
entered into the dashboard's `pdfFiles` table (`update_pdf_paths_js`,
update_dashboard.py 185) are byte-identical for every day number and
title, of the form `Day_<day>_<title with space and slash replaced by
underscore>.pdf`; in particular day 7 with title "Salary Math" yields
`Day_7_Salary_Math.pdf` in both. -/
theorem claim_c2_filename_agreement :
    (∀ (d : Int) (t : List Char),
        create_professional_pdf_filename d t = update_pdf_paths_filename d t)
    ∧ create_professional_pdf_filename 7 ("Salary Math".toList)
        = "Day_7_Salary_Math.pdf".toList
    ∧ update_pdf_paths_filename 7 ("Salary Math".toList)
        = "Day_7_Salary_Math.pdf".toList := by
  refine ⟨fun d t => rfl, by decide, by decide⟩

/-- C9: the gradient accent embedded in the card built by
`create_card_html` is the element at index `(day - 1) mod 10` of the fixed
ten-element gradient list, a pure function of the day number alone. -/
theorem claim_c9_gradient_pure :
    ∀ r : Resource, ∃ u v,
      create_card_html r
        = u ++ ("background: ".toList ++ specGradient r.day ++ ";".toList) ++ v := by
  intro r
  refine ⟨cardPre r, cardPost r, ?_⟩
  simp [create_card_html, specGradient, gradients, List.append_assoc]

/-- C5: when the dashboard document lacks the `.days-grid` marker
(`findDaysGrid` reports no hit), `update_dashboard` returns failure before
performing its single write, so the stored file state is unchanged. -/
theorem claim_c5_no_grid_no_write :
    ∀ (findDaysGrid : List Char → Bool)
      (strAfterCards : List Char → List Resource → List Char)
      (roundTrip prettifyStr : List Char → List Char)
      (fs : DashFS) (html : List Char),
      fs.index_html = some html → findDaysGrid html = false →
      update_dashboard findDaysGrid strAfterCards roundTrip prettifyStr fs = (false, fs) := by
  intro fg sac rt pf fs html hih hfg
  rcases fs with ⟨nc, ih⟩
  cases nc with
  | none => rfl
  | some rs =>
    simp only at hih
    subst hih
    simp [update_dashboard, hfg]

/-- Witness for C5 at a concrete file state and marker test. -/
theorem claim_c5_witness :
    (DashFS.mk (some []) (some demoPlainDoc)).index_html = some demoPlainDoc
    ∧ (fun _ : List Char => false) demoPlainDoc = false
    ∧ update_dashboard (fun _ => false) (fun h _ => h) id id
        (DashFS.mk (some []) (some demoPlainDoc))
        = (false, DashFS.mk (some []) (some demoPlainDoc)) :=
  ⟨rfl, rfl, claim_c5_no_grid_no_write _ _ _ _ _ _ rfl rfl⟩

/-- C7: an empty input, and more generally any input all of whose parsed
sections fail the acceptance test, makes `parse_claude_response` return an
empty list (the model is a total function, so no exception is raised). -/
theorem claim_c7_empty_or_invalid :
    ∀ (d : Int) (content : List Char),
      parse_claude_response [] d = []
      ∧ ((∀ r ∈ parseSectionsAll (pySplit dashDelim content) d, acceptB r = false) →
          parse_claude_response content d = []) := by
  intro d content
  constructor
  · rfl
  · intro h
    rw [parse_claude_response, parseSections_eq_filter]
    exact List.filter_eq_nil_iff.mpr (fun r hr => by simp [h r hr])

/-- Witness for C7: the input `"---"` has only blank sections, hence zero
valid ones, and parses to the empty list. -/
theorem claim_c7_witness :
    (∀ r ∈ parseSectionsAll (pySplit dashDelim ("---".toList)) 11, acceptB r = false)
    ∧ parse_claude_response ("---".toList) 11 = [] :=
  ⟨by decide, (claim_c7_empty_or_invalid 11 ("---".toList)).2 (by decide)⟩

/-- C1 counterexample: the section `"TITLE: A"` has no `FULL_CONTENT`
label, so its record carries the sentinel `"Content not found."`, which is
nonempty and therefore passes the truthiness acceptance test of line 230 —
the record is appended, where the claim requires it to be omitted. -/
theorem claim_c1_counterexample :
    (parse_claude_response demoNoFC 11).map (fun r => r.full_content) = [sentinelFC]
    ∧ sentinelFC.isEmpty = false := by
  constructor
  · rfl
  · rfl

/-- C1 amended: a parsed section's record is appended exactly when its
`title` and its `full_content` are nonempty strings (Python truthiness);
the sentinel `"Content not found."` is nonempty and thus accepted, so the
acceptance predicate does not distinguish it. -/
theorem claim_c1_acceptance :
    ∀ (content : List Char) (d : Int),
      parse_claude_response content d
        = (parseSectionsAll (pySplit dashDelim content) d).filter acceptB :=
  fun content d => parseSections_eq_filter (pySplit dashDelim content) d

/-- Day/counter behaviour of one loop iteration when `DAY` parses. -/
theorem parseSection_day_some {s : List Char} {n : Nat} (h : searchDay s = some n)
    (dc : Int) : (parseSection s dc).1.day = (n : Int) ∧ (parseSection s dc).2 = dc := by
  simp [parseSection, h]

/-- Day/counter behaviour of one loop iteration when `DAY` is missing. -/
theorem parseSection_day_none {s : List Char} (h : searchDay s = none)
    (dc : Int) : (parseSection s dc).1.day = dc ∧ (parseSection s dc).2 = dc + 1 := by
  simp [parseSection, h]

/-- Blank sections neither produce records nor touch the counter. -/
theorem parseSectionsAll_filter_blank :
    ∀ (ss : List (List Char)) (dc : Int),
      parseSectionsAll ss dc
        = parseSectionsAll (ss.filter (fun s => !(pyStrip s).isEmpty)) dc := by
  intro ss
  induction ss with
  | nil => intro dc; rfl
  | cons s rest ih =>
    intro dc
    by_cases hb : (pyStrip s).isEmpty
    · simp [parseSectionsAll, hb, ih]
    · simp [parseSectionsAll, hb, ih]

/-- Over nonblank sections, the records parsed with fallback day numbers
(those whose `DAY` search failed) carry exactly the consecutive values
`d, d+1, d+2, ...` in section order. -/
theorem fallback_days_consecutive :
    ∀ (ss : List (List Char)), (∀ s ∈ ss, (pyStrip s).isEmpty = false) → ∀ d : Int,
      ((ss.zip (parseSectionsAll ss d)).filter
          (fun p => (searchDay p.1).isNone)).map (fun p => p.2.day)
        = (List.range (ss.countP (fun s => (searchDay s).isNone))).map
            (fun (i : Nat) => d + (i : Int)) := by
  intro ss
  induction ss with
  | nil => intro _ d; rfl
  | cons s rest ih =>
    intro hnb d
    have hs : (pyStrip s).isEmpty = false := hnb s (List.mem_cons_self s rest)
    have hrest : ∀ t ∈ rest, (pyStrip t).isEmpty = false :=
      fun t ht => hnb t (List.mem_cons_of_mem s ht)
    have hall : parseSectionsAll (s :: rest) d
        = (parseSection s d).1 :: parseSectionsAll rest (parseSection s d).2 := by
      simp [parseSectionsAll, hs]
    cases hd : searchDay s with
    | some n =>
      have h1 := parseSection_day_some hd d
      rw [hall, List.zip_cons_cons, List.filter_cons, List.countP_cons]
      simp only [hd, Option.isNone_some, Bool.false_eq_true, if_false, add_zero, h1.2]
      exact ih hrest d
    | none =>
      have h1 := parseSection_day_none hd d
      rw [hall, List.zip_cons_cons, List.filter_cons, List.countP_cons]
      simp only [hd, Option.isNone_none, if_true, List.map_cons, h1.1, h1.2]
      rw [ih hrest (d + 1), List.range_succ_eq_map]
      simp only [List.map_cons, List.map_map, Nat.cast_zero, add_zero]
      congr 1
      apply List.map_congr_left
      intro i _
      simp only [Function.comp_apply, Nat.succ_eq_add_one]
      push_cast
      ring

/-- C3 counterexample: on the two-section input whose first section
supplies an explicit `DAY: 11` and whose second section has no `DAY`
field, parsing with `next_day = 11` assigns the fallback day 11 to the
second section, colliding with the explicit day 11 of the first — the
loop never consults explicitly supplied days when drawing from the
counter. -/
theorem claim_c3_counterexample :
    (nonblankSections demoCollide).map searchDay = [some 11, none]
    ∧ (parse_claude_response demoCollide 11).map (fun r => r.day) = [11, 11] := by
  constructor
  · rfl
  · rfl

/-- C3 amended: within a single parse the day numbers assigned from the
fallback counter form the strictly increasing consecutive sequence
`next_day, next_day + 1, ...` in section order, one counter value per
fallback use and none reused; they can, however, collide with a day
number supplied explicitly by another section, which the loop never
consults.  The two trailing conjuncts tie the section/record
correspondence used here back to `parse_claude_response`. -/
theorem claim_c3_fallback_days :
    ∀ (content : List Char) (d : Int),
      (((nonblankSections content).zip (parseSectionsAll (nonblankSections content) d)).filter
          (fun p => (searchDay p.1).isNone)).map (fun p => p.2.day)
        = (List.range ((nonblankSections content).countP
              (fun s => (searchDay s).isNone))).map (fun (i : Nat) => d + (i : Int))
      ∧ parseSectionsAll (pySplit dashDelim content) d
          = parseSectionsAll (nonblankSections content) d
      ∧ parse_claude_response content d
          = (parseSectionsAll (nonblankSections content) d).filter acceptB := by
  intro content d
  have hnb : ∀ t ∈ nonblankSections content, (pyStrip t).isEmpty = false := by
    intro t ht
    have := (List.mem_filter.mp ht).2
    simpa using this
  refine ⟨fallback_days_consecutive (nonblankSections content) hnb d, ?_, ?_⟩
  · exact parseSectionsAll_filter_blank (pySplit dashDelim content) d
  · rw [parse_claude_response, parseSections_eq_filter,
        parseSectionsAll_filter_blank (pySplit dashDelim content) d]
    rfl

/-- Upper-casing a word character yields a word character that is not an
ASCII lower-case letter. -/
theorem pyToUpper_word {c : Char} (h : isWordChar c = true) :
    isAsciiLower (pyToUpper c) = false ∧ isWordChar (pyToUpper c) = true := by
  by_cases hl : isAsciiLower c = true
  · have hb : 97 ≤ c.toNat ∧ c.toNat ≤ 122 := by
      have := hl
      rw [isAsciiLower, Bool.and_eq_true, decide_eq_true_eq, decide_eq_true_eq] at this
      exact this
    have key : ∀ m, m < 123 → 97 ≤ m →
        isAsciiLower (Char.ofNat (m - 32)) = false
          ∧ isWordChar (Char.ofNat (m - 32)) = true := by decide
    have hk := key c.toNat (Nat.lt_succ_of_le hb.2) hb.1
    rw [pyToUpper, if_pos hl]
    exact hk
  · rw [pyToUpper, if_neg hl]
    refine ⟨?_, h⟩
    exact Bool.eq_false_iff.mpr hl

/-- What a successful `PASSWORD` search returns: a nonempty run of word
characters. -/
theorem searchPassword_word :
    ∀ (s w : List Char), searchPassword s = some w →
      w.isEmpty = false ∧ ∀ c ∈ w, isWordChar c = true := by
  intro s
  induction s with
  | nil => intro w hw; cases hw
  | cons c cs ih =>
    intro w hw
    rw [searchPassword] at hw
    by_cases hci : ciStarts ("PASSWORD:".toList) (c :: cs) = true
    · rw [if_pos hci] at hw
      by_cases he :
          ((((c :: cs).drop 9).dropWhile isPySpace).takeWhile isWordChar).isEmpty = true
      · rw [if_pos he] at hw
        exact ih w hw
      · rw [if_neg he] at hw
        cases hw
        refine ⟨Bool.eq_false_iff.mpr he, ?_⟩
        intro x hx
        exact List.mem_takeWhile_imp hx
    · rw [if_neg hci] at hw
      exact ih w hw

/-- The `password` field of a parsed record is per-section. -/
theorem parseSection_password (s : List Char) (dc : Int) :
    (parseSection s dc).1.password = passwordOf s := by
  cases h : searchDay s <;> simp [parseSection, h]

/-- Every record produced by the unfiltered loop comes from some nonblank
section of the list, with the per-section password. -/
theorem parseSectionsAll_password_mem :
    ∀ (ss : List (List Char)) (dc : Int) (r : Resource),
      r ∈ parseSectionsAll ss dc →
      ∃ s, s ∈ ss ∧ (pyStrip s).isEmpty = false ∧ r.password = passwordOf s := by
  intro ss
  induction ss with
  | nil => intro dc r hr; cases hr
  | cons s rest ih =>
    intro dc r hr
    by_cases hb : (pyStrip s).isEmpty = true
    · rw [parseSectionsAll, if_pos hb] at hr
      obtain ⟨t, ht, hnb, hp⟩ := ih dc r hr
      exact ⟨t, List.mem_cons_of_mem s ht, hnb, hp⟩
    · rw [parseSectionsAll, if_neg hb] at hr
      rcases List.mem_cons.mp hr with h | h
      · refine ⟨s, List.mem_cons_self s rest, Bool.eq_false_iff.mpr hb, ?_⟩
        rw [h]
        exact parseSection_password s dc
      · obtain ⟨t, ht, hnb, hp⟩ := ih (parseSection s dc).2 r h
        exact ⟨t, List.mem_cons_of_mem s ht, hnb, hp⟩

/-- C8: the password of every parsed record is the section's first
`PASSWORD`-labeled word token upper-cased — `"ACCESS"` when no such token
exists — and is in every case a nonempty run of word characters containing
no lower-case letter. -/
theorem claim_c8_password :
    ∀ (content : List Char) (d : Int) (r : Resource),
      r ∈ parse_claude_response content d →
      ∃ s, s ∈ nonblankSections content ∧ r.password = passwordOf s
        ∧ r.password.isEmpty = false
        ∧ r.password.all (fun c => isWordChar c && !(isAsciiLower c)) = true := by
  intro content d r hr
  rw [parse_claude_response, parseSections_eq_filter] at hr
  have hr' := (List.mem_filter.mp hr).1
  obtain ⟨s, hs, hnb, hp⟩ :=
    parseSectionsAll_password_mem (pySplit dashDelim content) d r hr'
  refine ⟨s, List.mem_filter.mpr ⟨hs, by simp [hnb]⟩, hp, ?_, ?_⟩
  · rw [hp, passwordOf]
    cases hpw : searchPassword s with
    | some w =>
      have hw := searchPassword_word s w hpw
      simp only []
      cases w with
      | nil => simp at hw
      | cons a as => rfl
    | none => rfl
  · rw [hp, passwordOf]
    cases hpw : searchPassword s with
    | some w =>
      have hw := searchPassword_word s w hpw
      simp only [List.all_eq_true]
      intro x hx
      obtain ⟨y, hy, hxy⟩ := List.mem_map.mp hx
      have hword := hw.2 y hy
      have hu := pyToUpper_word hword
      rw [← hxy, Bool.and_eq_true, hu.2, hu.1]
      exact ⟨rfl, rfl⟩
    | none => decide

/-- Witness for C8: parsing a section carrying `PASSWORD: hello` and
instantiating the theorem at its (unique) record. -/
theorem claim_c8_witness :
    ∃ s, s ∈ nonblankSections demoPw
      ∧ ((parse_claude_response demoPw 11).headD default).password = passwordOf s
      ∧ ((parse_claude_response demoPw 11).headD default).password.isEmpty = false
      ∧ ((parse_claude_response demoPw 11).headD default).password.all
          (fun c => isWordChar c && !(isAsciiLower c)) = true :=
  claim_c8_password demoPw 11 ((parse_claude_response demoPw 11).headD default) (by decide)

/-- A successful exact-prefix test decomposes the string. -/
theorem startsWithL_decomp :
    ∀ (p s : List Char), startsWithL p s = true → s = p ++ s.drop p.length := by
  intro p
  induction p with
  | nil => intro s _; rfl
  | cons a as ih =>
    intro s hs
    cases s with
    | nil => cases hs
    | cons b bs =>
      rw [startsWithL, Bool.and_eq_true, decide_eq_true_eq] at hs
      have := ih bs hs.2
      simp [hs.1, List.drop_succ_cons]
      exact this

/-- A string starts with itself. -/
theorem startsWithL_self_append : ∀ (p v : List Char), startsWithL p (p ++ v) = true := by
  intro p
  induction p with
  | nil => intro v; rfl
  | cons a as ih => intro v; simp [startsWithL, ih]

/-- Any explicit occurrence makes `hasSeq` true. -/
theorem hasSeq_append : ∀ (u sep v : List Char), hasSeq sep (u ++ sep ++ v) = true := by
  intro u sep v
  induction u with
  | nil =>
    cases sep with
    | nil => cases v with | nil => rfl | cons a as => rfl
    | cons a as =>
      have h := startsWithL_self_append (a :: as) v
      rw [List.cons_append] at h
      rw [List.nil_append, List.cons_append, hasSeq]
      simp [h]
  | cons c cu ih =>
    rw [List.cons_append, List.cons_append, hasSeq, Bool.or_eq_true]
    exact Or.inr ih

/-- A true `hasSeq` yields an explicit occurrence. -/
theorem hasSeq_decomp :
    ∀ (y sep : List Char), hasSeq sep y = true → ∃ u v, y = u ++ sep ++ v := by
  intro y sep
  induction y with
  | nil =>
    intro h
    rw [hasSeq, List.isEmpty_iff] at h
    exact ⟨[], [], by simp [h]⟩
  | cons c cs ih =>
    intro h
    rw [hasSeq, Bool.or_eq_true] at h
    cases h with
    | inl h =>
      exact ⟨[], (c :: cs).drop sep.length, by simpa using startsWithL_decomp sep (c :: cs) h⟩
    | inr h =>
      obtain ⟨u, v, huv⟩ := ih h
      exact ⟨c :: u, v, by simp [huv]⟩

/-- No occurrence in a string means no occurrence in any contiguous part
of it. -/
theorem hasSeq_infix_false {sep x a y b : List Char}
    (hx : hasSeq sep x = false) (hd : x = a ++ y ++ b) : hasSeq sep y = false := by
  by_contra h
  have h' : hasSeq sep y = true := by
    cases hy : hasSeq sep y with
    | false => exact absurd hy h
    | true => rfl
  obtain ⟨u, v, huv⟩ := hasSeq_decomp y sep h'
  have : x = (a ++ u) ++ sep ++ (v ++ b) := by
    rw [hd, huv]
    simp [List.append_assoc]
  rw [this, hasSeq_append] at hx
  cases hx

/-- Splitting a string in which the separator does not occur returns the
single-part list (fuel-level statement). -/
theorem pySplitF_nosep {sep : List Char} :
    ∀ (f : Nat) (x : List Char), x.length < f → hasSeq sep x = false →
      pySplitF sep f x = [x] := by
  intro f
  induction f with
  | zero => intro x hx; omega
  | succ f ih =>
    intro x hx hno
    cases x with
    | nil => rfl
    | cons c cs =>
      rw [hasSeq, Bool.or_eq_false_iff] at hno
      rw [pySplitF, hno.1, Bool.and_false, if_neg (by simp)]
      rw [ih cs (by simpa using Nat.lt_of_succ_lt_succ hx) hno.2]
      rfl

/-- Splitting a string in which the separator does not occur returns the
single-part list. -/
theorem pySplit_nosep {sep x : List Char}
    (hno : hasSeq sep x = false) : pySplit sep x = [x] :=
  pySplitF_nosep (x.length + 1) x (Nat.lt_succ_self _) hno

/-- Dropping a whitespace run twice is dropping it once. -/
theorem dropWhile_ws_idem :
    ∀ l : List Char, (l.dropWhile isPySpace).dropWhile isPySpace = l.dropWhile isPySpace := by
  intro l
  induction l with
  | nil => rfl
  | cons c cs ih =>
    by_cases h : isPySpace c = true
    · simp [List.dropWhile_cons, h, ih]
    · simp [List.dropWhile_cons, h]

/-- `pyLstrip` is idempotent. -/
theorem pyLstrip_idem (l : List Char) : pyLstrip (pyLstrip l) = pyLstrip l :=
  dropWhile_ws_idem l

/-- `pyRstrip` is idempotent. -/
theorem pyRstrip_idem (l : List Char) : pyRstrip (pyRstrip l) = pyRstrip l := by
  rw [pyRstrip, pyRstrip, List.reverse_reverse, dropWhile_ws_idem]

/-- `pyRstrip` removes a trailing whitespace run. -/
theorem pyRstrip_decomp (l : List Char) :
    ∃ z, (∀ c ∈ z, isPySpace c = true) ∧ l = pyRstrip l ++ z := by
  refine ⟨(l.reverse.takeWhile isPySpace).reverse, ?_, ?_⟩
  · intro c hc
    rw [List.mem_reverse] at hc
    exact List.mem_takeWhile_imp hc
  · rw [pyRstrip]
    conv_lhs => rw [← l.reverse_reverse]
    rw [← List.reverse_append, List.takeWhile_append_dropWhile]

/-- `pyLstrip` removes a leading whitespace run. -/
theorem pyLstrip_decomp (l : List Char) :
    (∀ c ∈ l.takeWhile isPySpace, isPySpace c = true)
      ∧ l = l.takeWhile isPySpace ++ pyLstrip l :=
  ⟨fun c hc => List.mem_takeWhile_imp hc, (List.takeWhile_append_dropWhile isPySpace l).symm⟩

/-- Right-stripping a left-stripped string leaves it left-stripped. -/
theorem pyLstrip_pyRstrip (l : List Char) (h : pyLstrip l = l) :
    pyLstrip (pyRstrip l) = pyRstrip l := by
  obtain ⟨z, _, hz⟩ := pyRstrip_decomp l
  cases hr : pyRstrip l with
  | nil => rfl
  | cons c cs =>
    have hc : isPySpace c = false := by
      by_contra hcc
      have hcc' : isPySpace c = true := by
        cases hcv : isPySpace c with
        | false => exact absurd hcv hcc
        | true => rfl
      have hl : l = c :: (cs ++ z) := by rw [hz, hr]; rfl
      have hlen := congrArg List.length h
      rw [pyLstrip, hl, List.dropWhile_cons, if_pos hcc'] at hlen
      have hle : (List.dropWhile isPySpace (cs ++ z)).length ≤ (cs ++ z).length :=
        (List.dropWhile_sublist isPySpace).length_le
      simp at hlen hle
      omega
    rw [pyLstrip, List.dropWhile_cons, if_neg (by simp [hc])]

/-- `pyStrip` is idempotent. -/
theorem pyStrip_idem (l : List Char) : pyStrip (pyStrip l) = pyStrip l := by
  rw [pyStrip, pyStrip, pyLstrip_pyRstrip (pyLstrip l) (pyLstrip_idem l), pyRstrip_idem]

/-- Stripping after left-stripping is plain stripping. -/
theorem pyStrip_pyLstrip (l : List Char) : pyStrip (pyLstrip l) = pyStrip l := by
  rw [pyStrip, pyLstrip_idem, pyStrip]

/-- An all-whitespace string strips to nothing. -/
theorem pyStrip_all_ws {l : List Char} (h : ∀ c ∈ l, isPySpace c = true) :
    pyStrip l = [] := by
  have : pyLstrip l = [] := by
    rw [pyLstrip, List.dropWhile_eq_nil_iff]
    exact h
  rw [pyStrip, this]
  rfl

/-- A nonempty list's `getLastD` is one of its elements. -/
theorem getLastD_mem (t : List Char) (d : Char) (h : t ≠ []) : t.getLastD d ∈ t := by
  rw [List.getLastD_eq_getLast?, List.getLast?_eq_getLast t h]
  exact List.getLast_mem h

/-- Stripping the DOTALL group equals stripping the whole text after the
label. -/
theorem pyStrip_fcGroup (t : List Char) (hne : t ≠ []) :
    pyStrip (fcGroup t) = pyStrip t := by
  have hfc : fcGroup t
      = if (t.dropWhile isPySpace).isEmpty then [t.getLastD ' '] else t.dropWhile isPySpace :=
    rfl
  rw [hfc]
  by_cases he : (t.dropWhile isPySpace).isEmpty = true
  · rw [if_pos he]
    have hall : ∀ c ∈ t, isPySpace c = true :=
      List.dropWhile_eq_nil_iff.mp (List.isEmpty_iff.mp he)
    have hc : isPySpace (t.getLastD ' ') = true := hall _ (getLastD_mem t ' ' hne)
    rw [pyStrip_all_ws hall, pyStrip_all_ws]
    intro c hcm
    rw [List.mem_singleton.mp hcm]
    exact hc
  · rw [if_neg he]
    exact pyStrip_pyLstrip t

/-- `firstLabelTail` returns a suffix of the scanned string. -/
theorem firstLabelTail_suffix :
    ∀ (lab s t : List Char), firstLabelTail lab s = some t → ∃ p, s = p ++ t := by
  intro lab s
  induction s with
  | nil => intro t h; cases h
  | cons c cs ih =>
    intro t h
    rw [firstLabelTail] at h
    by_cases hc : ciStarts lab (c :: cs) = true
    · rw [if_pos hc] at h
      cases h
      exact ⟨(c :: cs).take lab.length, (List.take_append_drop _ _).symm⟩
    · rw [if_neg hc] at h
      obtain ⟨p, hp⟩ := ih t h
      exact ⟨c :: p, by rw [List.cons_append, ← hp]⟩

/-- When the first `FULL_CONTENT:` occurrence has at least one character
after it, the DOTALL search succeeds right there with the worked-out
group. -/
theorem searchFC_at_first :
    ∀ (s t : List Char), firstLabelTail ("FULL_CONTENT:".toList) s = some t → t ≠ [] →
      searchFullContent s = some (fcGroup t) := by
  intro s
  induction s with
  | nil => intro t h _; cases h
  | cons c cs ih =>
    intro t h hne
    rw [firstLabelTail] at h
    rw [searchFullContent]
    by_cases hc : ciStarts ("FULL_CONTENT:".toList) (c :: cs) = true
    · rw [if_pos hc] at h
      rw [if_pos hc]
      have hlen : ("FULL_CONTENT:".toList).length = 13 := rfl
      rw [hlen] at h
      cases h
      rw [if_neg (fun hh => hne (List.isEmpty_iff.mp hh))]
    · rw [if_neg hc] at h
      rw [if_neg hc]
      exact ih t h hne

/-- C6 counterexample: the section `"TITLE: A\nFULL_CONTENT:"` contains a
`FULL_CONTENT` label whose following text is empty; the claim then demands
`full_content = ""`, but the regex (needing at least one character for
`(.+)`) fails and the parser stores the sentinel instead. -/
theorem claim_c6_counterexample :
    firstLabelTail ("FULL_CONTENT:".toList) demoFCEnd = some []
    ∧ (parse_claude_response demoFCEnd 11).map (fun r => r.full_content) = [sentinelFC]
    ∧ sentinelFC ≠ pyStrip [] := by
  refine ⟨by decide, rfl, by decide⟩

/-- C6 amended: for every section in which the `FULL_CONTENT:` label
occurs with at least one character after it, and in which the `---`
delimiter does not occur (sections produced by the splitter never contain
it), the parsed `full_content` equals the text following the first label
occurrence, taken to the end of the section and stripped of surrounding
whitespace. -/
theorem claim_c6_full_content :
    ∀ (s t : List Char),
      firstLabelTail ("FULL_CONTENT:".toList) s = some t → t ≠ [] →
      hasSeq dashDelim s = false →
      fullContentOf s = pyStrip t := by
  intro s t hf hne hno
  rw [fullContentOf, searchFC_at_first s t hf hne]
  show pyStrip ((pySplit dashDelim (pyStrip (fcGroup t))).headD []) = pyStrip t
  rw [pyStrip_fcGroup t hne]
  obtain ⟨p, hp⟩ := firstLabelTail_suffix _ s t hf
  obtain ⟨z, hzw, hz⟩ := pyRstrip_decomp (pyLstrip t)
  have ht : t = (t.takeWhile isPySpace ++ pyStrip t) ++ z := by
    conv_lhs => rw [(pyLstrip_decomp t).2]
    rw [List.append_assoc, pyStrip, ← hz]
  have hno2 : hasSeq dashDelim (pyStrip t) = false := by
    refine @hasSeq_infix_false dashDelim s (p ++ t.takeWhile isPySpace) (pyStrip t) z hno ?_
    rw [hp]
    conv_lhs => rw [ht]
    simp [List.append_assoc]
  rw [pySplit_nosep hno2]
  simp [pyStrip_idem]

/-- Witness for C6 at the section `"FULL_CONTENT: hi"`. -/
theorem claim_c6_witness :
    firstLabelTail ("FULL_CONTENT:".toList) demoFCHi = some (" hi".toList)
    ∧ fullContentOf demoFCHi = pyStrip (" hi".toList) :=
  ⟨by decide,
   claim_c6_full_content demoFCHi (" hi".toList) (by decide) (by decide) (by decide)⟩

/-- Prepending a character to the first part prepends it to the joined
string. -/
theorem joinParts_cons_head (sep : List Char) (c : Char) (p0 : List Char)
    (rest : List (List Char)) :
    joinParts sep ((c :: p0) :: rest) = c :: joinParts sep (p0 :: rest) := by
  cases rest with
  | nil => rfl
  | cons q ps => simp [joinParts, List.cons_append]

/-- Frame property of `pyReplaceAllF`: the scanned string decomposes into
parts joined by the pattern, and the output is the same parts joined by
the replacement — every character outside the replaced occurrences is
carried over unchanged. -/
theorem pyReplaceAllF_parts {pat repl : List Char} (hne : pat.isEmpty = false) :
    ∀ (f : Nat) (s : List Char), s.length < f →
      ∃ parts, parts ≠ [] ∧ joinParts pat parts = s
        ∧ pyReplaceAllF pat repl f s = joinParts repl parts := by
  intro f
  induction f with
  | zero => intro s h; omega
  | succ f ih =>
    intro s hlen
    cases s with
    | nil => exact ⟨[[]], by simp, rfl, rfl⟩
    | cons c cs =>
      rw [pyReplaceAllF]
      by_cases hm : startsWithL pat (c :: cs) = true
      · rw [if_pos (by simp [hne, hm])]
        have hlt : (cs.drop (pat.length - 1)).length < f := by
          have hld : (cs.drop (pat.length - 1)).length = cs.length - (pat.length - 1) :=
            List.length_drop _ _
          simp at hlen
          omega
        obtain ⟨parts', hp1, hp2, hp3⟩ := ih (cs.drop (pat.length - 1)) hlt
        obtain ⟨q, ps, rfl⟩ : ∃ q ps, parts' = q :: ps := by
          cases parts' with
          | nil => exact absurd rfl hp1
          | cons q ps => exact ⟨q, ps, rfl⟩
        have hdd : (c :: cs).drop pat.length = cs.drop (pat.length - 1) := by
          cases hp : pat with
          | nil => rw [hp] at hne; simp at hne
          | cons a as =>
            simp [List.length_cons, List.drop_succ_cons]
        refine ⟨[] :: q :: ps, by simp, ?_, ?_⟩
        · rw [joinParts, hp2, List.nil_append, ← hdd]
          exact (startsWithL_decomp pat (c :: cs) hm).symm
        · rw [joinParts, hp3, List.nil_append]
      · rw [if_neg (by simp [hm])]
        obtain ⟨parts', hp1, hp2, hp3⟩ := ih cs (by simp at hlen; omega)
        obtain ⟨p0, rest, rfl⟩ : ∃ p0 rest, parts' = p0 :: rest := by
          cases parts' with
          | nil => exact absurd rfl hp1
          | cons p0 rest => exact ⟨p0, rest, rfl⟩
        refine ⟨(c :: p0) :: rest, by simp, ?_, ?_⟩
        · rw [joinParts_cons_head, hp2]
        · rw [joinParts_cons_head, ← hp3]

/-- Frame property of `pyReplaceAll` (Python `str.replace`). -/
theorem pyReplaceAll_parts {pat repl : List Char} (hne : pat.isEmpty = false)
    (s : List Char) :
    ∃ parts, parts ≠ [] ∧ joinParts pat parts = s
      ∧ pyReplaceAll pat repl s = joinParts repl parts :=
  pyReplaceAllF_parts hne (s.length + 1) s (Nat.lt_succ_self _)

/-- C10 counterexample: in a document containing the literal text
`const passwords = {a};` twice, the regex matches the first occurrence,
but `str.replace` rewrites both, so the text after the matched literal —
here the whole second copy, which ends the document — does not survive
into the output, where the claim requires every character outside the
matched literal to be returned unchanged. -/
theorem claim_c10_counterexample :
    reSearchObj pwKeyStr demoTwice = some ['a']
    ∧ endsWithL ("const passwords = \x7ba\x7d;".toList) demoTwice = true
    ∧ endsWithL ("const passwords = \x7ba\x7d;".toList)
        (update_passwords_js demoTwice [res11]) = false := by
  refine ⟨by decide, by decide, by decide⟩

/-- The replaced `passwords` occurrence text is nonempty. -/
theorem pwTarget_ne_empty (cur : List Char) : (pwTarget cur).isEmpty = false := rfl

/-- The replaced `pdfFiles` occurrence text is nonempty. -/
theorem pdfTarget_ne_empty (cur : List Char) : (pdfTarget cur).isEmpty = false := rfl

/-- C10 amended: `update_passwords_js` and `update_pdf_paths_js` return
the document unchanged when their object literal is not found; when it is
found with body `cur`, the document splits into parts joined by the
literal text `const passwords = {cur}` (resp. `pdfFiles`), and the output
is the same parts joined by the rebuilt literal — so all characters
outside occurrences of that literal text are unchanged, but every such
occurrence is rewritten, not only the one the regex matched. -/
theorem claim_c10_frame :
    ∀ (html : List Char) (rs : List Resource),
      (reSearchObj pwKeyStr html = none → update_passwords_js html rs = html)
      ∧ (∀ cur, reSearchObj pwKeyStr html = some cur →
          ∃ parts, parts ≠ [] ∧ joinParts (pwTarget cur) parts = html
            ∧ update_passwords_js html rs = joinParts (pwReplacementText cur rs) parts)
      ∧ (reSearchObj pdfKeyStr html = none → update_pdf_paths_js html rs = html)
      ∧ (∀ cur, reSearchObj pdfKeyStr html = some cur →
          ∃ parts, parts ≠ [] ∧ joinParts (pdfTarget cur) parts = html
            ∧ update_pdf_paths_js html rs = joinParts (pdfReplacementText cur rs) parts) := by
  intro html rs
  refine ⟨?_, ?_, ?_, ?_⟩
  · intro h
    rw [update_passwords_js, h]
  · intro cur h
    rw [update_passwords_js, h]
    exact pyReplaceAll_parts (pwTarget_ne_empty cur) html
  · intro h
    rw [update_pdf_paths_js, h]
  · intro cur h
    rw [update_pdf_paths_js, h]
    exact pyReplaceAll_parts (pdfTarget_ne_empty cur) html

/-- Witness for C10 at concrete documents: one without the literals
(returned unchanged) and one with both (decomposed and rejoined). -/
theorem claim_c10_witness :
    update_passwords_js demoPlainDoc [res11] = demoPlainDoc
    ∧ (∃ parts, parts ≠ [] ∧ joinParts (pwTarget ['x']) parts = demoBothDoc
        ∧ update_passwords_js demoBothDoc [res11]
            = joinParts (pwReplacementText ['x'] [res11]) parts)
    ∧ update_pdf_paths_js demoPlainDoc [res11] = demoPlainDoc
    ∧ (∃ parts, parts ≠ [] ∧ joinParts (pdfTarget ['y']) parts = demoBothDoc
        ∧ update_pdf_paths_js demoBothDoc [res11]
            = joinParts (pdfReplacementText ['y'] [res11]) parts) :=
  ⟨(claim_c10_frame demoPlainDoc [res11]).1 (by decide),
   (claim_c10_frame demoBothDoc [res11]).2.1 ['x'] (by decide),
   (claim_c10_frame demoPlainDoc [res11]).2.2.1 (by decide),
   (claim_c10_frame demoBothDoc [res11]).2.2.2 ['y'] (by decide)⟩

/-- `splitComma` never returns the empty list of parts. -/
theorem splitComma_ne_nil : ∀ l : List Char, splitComma l ≠ [] := by
  intro l
  induction l with
  | nil => simp [splitComma]
  | cons c cs ih =>
    rw [splitComma]
    by_cases h : c = ','
    · simp [h]
    · rw [if_neg h]
      cases hs : splitComma cs with
      | nil => exact absurd hs ih
      | cons p ps => simp

/-- Splitting distributes over an explicit comma. -/
theorem splitComma_append_comma :
    ∀ (x y : List Char), splitComma (x ++ ',' :: y) = splitComma x ++ splitComma y := by
  intro x y
  induction x with
  | nil => simp [splitComma]
  | cons c cs ih =>
    rw [List.cons_append, splitComma]
    by_cases h : c = ','
    · rw [if_pos h, ih]
      rw [splitComma, if_pos h]
      rfl
    · rw [if_neg h, ih]
      rw [splitComma, if_neg h]
      cases hs : splitComma cs with
      | nil => exact absurd hs (splitComma_ne_nil cs)
      | cons p ps => simp

/-- `entriesOf` distributes over an explicit comma. -/
theorem entriesOf_append_comma (x y : List Char) :
    entriesOf (x ++ ',' :: y) = entriesOf x ++ entriesOf y := by
  rw [entriesOf, entriesOf, entriesOf, splitComma_append_comma,
    List.map_append, List.filter_append]

/-- Leading whitespace does not affect stripping. -/
theorem pyStrip_append_ws_left {w : List Char} (hw : ∀ c ∈ w, isPySpace c = true)
    (x : List Char) : pyStrip (w ++ x) = pyStrip x := by
  rw [pyStrip, pyStrip, pyLstrip, pyLstrip, List.dropWhile_append_of_pos hw]

/-- A leading whitespace character does not affect stripping. -/
theorem pyStrip_cons_ws {c : Char} (hc : isPySpace c = true) (x : List Char) :
    pyStrip (c :: x) = pyStrip x :=
  pyStrip_append_ws_left (fun a ha => by rw [List.mem_singleton.mp ha]; exact hc) x

/-- A leading comma contributes no entry. -/
theorem entriesOf_cons_comma (y : List Char) : entriesOf (',' :: y) = entriesOf y := by
  have h := entriesOf_append_comma [] y
  rw [List.nil_append] at h
  rw [h]
  rfl

/-- A leading whitespace character contributes no entry. -/
theorem entriesOf_cons_ws {c : Char} (hc : isPySpace c = true) (y : List Char) :
    entriesOf (c :: y) = entriesOf y := by
  have hnc : ¬c = ',' := by
    intro h
    rw [h] at hc
    exact absurd hc (by decide)
  obtain ⟨p, ps, hps⟩ : ∃ p ps, splitComma y = p :: ps := by
    cases hs : splitComma y with
    | nil => exact absurd hs (splitComma_ne_nil y)
    | cons p ps => exact ⟨p, ps, rfl⟩
  rw [entriesOf, entriesOf, splitComma, if_neg hnc, hps]
  simp only [List.modifyHead_cons, List.map_cons]
  rw [pyStrip_cons_ws hc]

/-- A string of commas and whitespace only contributes no entries. -/
theorem entriesOf_junk_only :
    ∀ t : List Char, (∀ c ∈ t, c = ',' ∨ isPySpace c = true) → entriesOf t = [] := by
  intro t
  induction t with
  | nil => intro _; rfl
  | cons c cs ih =>
    intro h
    have hrest : ∀ c ∈ cs, c = ',' ∨ isPySpace c = true :=
      fun x hx => h x (List.mem_cons_of_mem c hx)
    cases h c (List.mem_cons_self c cs) with
    | inl hc => rw [hc, entriesOf_cons_comma]; exact ih hrest
    | inr hc => rw [entriesOf_cons_ws hc]; exact ih hrest

/-- How `pyRstrip` acts on an append. -/
theorem pyRstrip_append (x y : List Char) :
    pyRstrip (x ++ y) = if (pyRstrip y).isEmpty then pyRstrip x else x ++ pyRstrip y := by
  have hiff : (pyRstrip y).isEmpty = (y.reverse.dropWhile isPySpace).isEmpty := by
    rw [pyRstrip]
    cases hv : y.reverse.dropWhile isPySpace <;> simp [hv]
  rw [pyRstrip, List.reverse_append, List.dropWhile_append]
  by_cases h : (y.reverse.dropWhile isPySpace).isEmpty = true
  · rw [if_pos h, if_pos (by rw [hiff]; exact h)]
    rfl
  · rw [if_neg h, if_neg (by rw [hiff]; exact h)]
    rw [List.reverse_append, List.reverse_reverse]
    rfl

/-- An all-whitespace string right-strips to nothing. -/
theorem pyRstrip_all_ws {l : List Char} (h : ∀ c ∈ l, isPySpace c = true) :
    pyRstrip l = [] := by
  rw [pyRstrip, List.dropWhile_eq_nil_iff.mpr (fun x hx => h x (List.mem_reverse.mp hx))]
  rfl

/-- The two strip orders agree. -/
theorem pyStrip_comm (l : List Char) : pyStrip l = pyLstrip (pyRstrip l) := by
  have htw : ∀ c ∈ l.takeWhile isPySpace, isPySpace c = true := (pyLstrip_decomp l).1
  conv_rhs => rw [(pyLstrip_decomp l).2]
  rw [pyRstrip_append]
  by_cases h : (pyRstrip (pyLstrip l)).isEmpty = true
  · rw [if_pos h, pyRstrip_all_ws htw, pyStrip, List.isEmpty_iff.mp h]
    rfl
  · rw [if_neg h, pyLstrip, List.dropWhile_append_of_pos htw, pyStrip, ← pyLstrip]
    rw [pyLstrip_pyRstrip (pyLstrip l) (pyLstrip_idem l)]

/-- Trailing whitespace does not affect stripping. -/
theorem pyStrip_append_ws {w : List Char} (hw : ∀ c ∈ w, isPySpace c = true)
    (x : List Char) : pyStrip (x ++ w) = pyStrip x := by
  rw [pyStrip_comm, pyStrip_comm, pyRstrip_append,
    if_pos (by rw [pyRstrip_all_ws hw]; rfl)]

/-- Splitting a comma-free string yields one part. -/
theorem splitComma_nosep :
    ∀ x : List Char, (∀ c ∈ x, ¬c = ',') → splitComma x = [x] := by
  intro x
  induction x with
  | nil => intro _; rfl
  | cons c cs ih =>
    intro h
    rw [splitComma, if_neg (h c (List.mem_cons_self c cs)),
      ih (fun a ha => h a (List.mem_cons_of_mem c ha))]
    rfl

/-- Appending a whitespace-only suffix extends the last part of the
comma-split. -/
theorem splitComma_append_allws {w : List Char} (hw : ∀ c ∈ w, isPySpace c = true) :
    ∀ x : List Char, splitComma (x ++ w) = appendLast w (splitComma x) := by
  have hw' : ∀ c ∈ w, ¬c = ',' := by
    intro c hc he
    have := hw c hc
    rw [he] at this
    exact absurd this (by decide)
  intro x
  induction x with
  | nil =>
    rw [List.nil_append, splitComma_nosep w hw']
    rfl
  | cons c cs ih =>
    obtain ⟨q, qs, hqs⟩ : ∃ q qs, splitComma cs = q :: qs := by
      cases hs : splitComma cs with
      | nil => exact absurd hs (splitComma_ne_nil cs)
      | cons q qs => exact ⟨q, qs, rfl⟩
    rw [List.cons_append, splitComma, splitComma]
    by_cases h : c = ','
    · rw [if_pos h, if_pos h, ih, hqs]
      rfl
    · rw [if_neg h, if_neg h, ih, hqs]
      cases qs with
      | nil => simp [appendLast, List.cons_append]
      | cons q2 qs2 => simp [appendLast]

/-- Extending the last part by trailing whitespace does not change the
stripped parts. -/
theorem appendLast_map_strip {w : List Char} (hw : ∀ c ∈ w, isPySpace c = true) :
    ∀ S : List (List Char), S ≠ [] →
      (appendLast w S).map pyStrip = S.map pyStrip := by
  intro S
  induction S with
  | nil => intro h; exact absurd rfl h
  | cons p S' ih =>
    intro _
    cases S' with
    | nil => simp [appendLast, pyStrip_append_ws hw]
    | cons q qs =>
      rw [appendLast, List.map_cons, List.map_cons, ih (by simp)]

/-- A whitespace-only suffix contributes no entries. -/
theorem entriesOf_append_allws {w : List Char} (hw : ∀ c ∈ w, isPySpace c = true)
    (x : List Char) : entriesOf (x ++ w) = entriesOf x := by
  rw [entriesOf, entriesOf, splitComma_append_allws hw,
    appendLast_map_strip hw _ (splitComma_ne_nil x)]

/-- `pyRstripComma` removes a trailing comma run. -/
theorem pyRstripComma_decomp (l : List Char) :
    ∃ z, (∀ c ∈ z, c = ',') ∧ l = pyRstripComma l ++ z := by
  refine ⟨(l.reverse.takeWhile (fun c => c = ',')).reverse, ?_, ?_⟩
  · intro c hc
    have := List.mem_takeWhile_imp (List.mem_reverse.mp hc)
    exact of_decide_eq_true this
  · rw [pyRstripComma]
    conv_lhs => rw [← l.reverse_reverse]
    rw [← List.reverse_append, List.takeWhile_append_dropWhile]

/-- Removing the trailing whitespace and comma runs does not change the
entry list. -/
theorem entriesOf_strip_junk (cur : List Char) :
    entriesOf cur = entriesOf (pyRstripComma (pyRstrip cur)) := by
  obtain ⟨w1, hw1, h1⟩ := pyRstrip_decomp cur
  obtain ⟨cr, hcr, h2⟩ := pyRstripComma_decomp (pyRstrip cur)
  conv_lhs => rw [h1, h2]
  cases cr with
  | nil =>
    rw [List.append_nil]
    exact entriesOf_append_allws hw1 _
  | cons c0 cr' =>
    have hc0 : c0 = ',' := hcr c0 (List.mem_cons_self c0 cr')
    rw [hc0]
    rw [show (pyRstripComma (pyRstrip cur) ++ ',' :: cr') ++ w1
          = pyRstripComma (pyRstrip cur) ++ ',' :: (cr' ++ w1) by simp]
    rw [entriesOf_append_comma]
    rw [entriesOf_junk_only (cr' ++ w1) ?_, List.append_nil]
    intro c hc
    cases List.mem_append.mp hc with
    | inl hcl => exact Or.inl (hcr c (List.mem_cons_of_mem c0 hcl))
    | inr hcr2 => exact Or.inr (hw1 c hcr2)

/-- `digitChar` always yields a digit character. -/
theorem digitChar_digit (m : Nat) : isDigitCh (digitChar m) = true := by
  match m with
  | 0 => rfl
  | 1 => rfl
  | 2 => rfl
  | 3 => rfl
  | 4 => rfl
  | 5 => rfl
  | 6 => rfl
  | 7 => rfl
  | 8 => rfl
  | 9 => rfl
  | _ + 10 => rfl

/-- All characters of the fuel-driven decimal rendering are digits. -/
theorem natStrF_digit :
    ∀ (f n : Nat) (c : Char), c ∈ natStrF f n → isDigitCh c = true := by
  intro f
  induction f with
  | zero => intro n c hc; cases hc
  | succ f ih =>
    intro n c hc
    rw [natStrF] at hc
    by_cases h : n < 10
    · rw [if_pos h] at hc
      rw [List.mem_singleton.mp hc]
      exact digitChar_digit n
    · rw [if_neg h] at hc
      cases List.mem_append.mp hc with
      | inl h1 => exact ih (n / 10) c h1
      | inr h2 =>
        rw [List.mem_singleton.mp h2]
        exact digitChar_digit (n % 10)

/-- A digit character is not a comma. -/
theorem digit_ne_comma {c : Char} (h : isDigitCh c = true) : ¬c = ',' := by
  intro he
  rw [he] at h
  exact absurd h (by decide)

/-- The decimal rendering of an int contains no comma. -/
theorem intStr_no_comma (d : Int) : ∀ c ∈ intStr d, ¬c = ',' := by
  intro c hc
  rw [intStr] at hc
  by_cases h : d < 0
  · rw [if_pos h] at hc
    cases List.mem_cons.mp hc with
    | inl h1 => intro he; rw [h1] at he; cases he
    | inr h2 => exact digit_ne_comma (natStrF_digit _ _ c h2)
  · rw [if_neg h] at hc
    exact digit_ne_comma (natStrF_digit _ _ c hc)

/-- A new `passwords` entry contains no comma when the password has none. -/
theorem pwEntryCore_no_comma {r : Resource} (h : ∀ c ∈ r.password, ¬c = ',') :
    ∀ c ∈ pwEntryCore r, ¬c = ',' := by
  intro c hc
  rw [pwEntryCore] at hc
  rcases List.mem_append.mp hc with hc1 | hc2
  · rcases List.mem_append.mp hc1 with hc3 | hc4
    · rcases List.mem_append.mp hc3 with hc5 | hc6
      · rcases List.mem_append.mp hc5 with hc7 | hc8
        · revert hc7
          have : ∀ a ∈ ("day".toList), ¬a = ',' := by decide
          exact this c
        · exact intStr_no_comma r.day c hc8
      · revert hc6
        have : ∀ a ∈ (": \x27".toList), ¬a = ',' := by decide
        exact this c
    · exact h c hc4
  · revert hc2
    have : ∀ a ∈ ("\x27".toList), ¬a = ',' := by decide
    exact this c

/-- A list whose `head?` is a non-whitespace character left-strips to
itself. -/
theorem pyLstrip_of_head {l : List Char} {h : Char} (hh : l.head? = some h)
    (hw : isPySpace h = false) : pyLstrip l = l := by
  cases l with
  | nil => cases hh
  | cons a l' =>
    rw [List.head?_cons] at hh
    cases hh
    rw [pyLstrip, List.dropWhile_cons, hw]
    rfl

/-- A new `passwords` entry is already stripped. -/
theorem pwEntryCore_strip (r : Resource) : pyStrip (pwEntryCore r) = pwEntryCore r := by
  have hshape : pwEntryCore r
      = ("day".toList ++ intStr r.day ++ ": \x27".toList ++ r.password) ++ "\x27".toList := by
    simp [pwEntryCore, List.append_assoc]
  have h1 : pyLstrip (pwEntryCore r) = pwEntryCore r :=
    pyLstrip_of_head (rfl) (by decide)
  rw [pyStrip, h1]
  conv_lhs => rw [hshape]
  rw [pyRstrip_append]
  rw [show pyRstrip ("\x27".toList) = "\x27".toList from rfl]
  rw [if_neg (by decide)]
  exact hshape.symm

/-- One indented entry line, preceded by its joining newline, strips to
the bare entry. -/
theorem pw_line_strip (r : Resource) :
    pyStrip ('\n' :: pwEntryLine r) = pwEntryCore r := by
  rw [pwEntryLine]
  rw [show '\n' :: ("            ".toList ++ pwEntryCore r)
        = ('\n' :: "            ".toList) ++ pwEntryCore r from rfl]
  rw [pyStrip_append_ws_left (by decide) (pwEntryCore r), pwEntryCore_strip]

/-- One indented entry line, preceded by its joining newline, contributes
exactly the bare entry. -/
theorem entriesOf_single_pw {r : Resource} (h : ∀ c ∈ r.password, ¬c = ',') :
    entriesOf ('\n' :: pwEntryLine r) = [pwEntryCore r] := by
  have hnc : ∀ c ∈ '\n' :: pwEntryLine r, ¬c = ',' := by
    intro c hc
    rcases List.mem_cons.mp hc with h1 | h2
    · intro he; rw [h1] at he; cases he
    · rw [pwEntryLine] at h2
      rcases List.mem_append.mp h2 with h3 | h4
      · revert h3
        have : ∀ a ∈ ("            ".toList), ¬a = ',' := by decide
        exact this c
      · exact pwEntryCore_no_comma h c h4
  rw [entriesOf, splitComma_nosep _ hnc, List.map_singleton, pw_line_strip]
  rw [List.filter_singleton]
  rw [show (!(pwEntryCore r).isEmpty) = true from rfl]
  rfl

/-- The appended entry block contributes exactly one bare entry per
resource, in order. -/
theorem entriesOf_pw_block :
    ∀ rs : List Resource, (∀ r ∈ rs, ∀ c ∈ r.password, ¬c = ',') →
      entriesOf ('\n' :: joinEntries (rs.map pwEntryLine)) = rs.map pwEntryCore := by
  intro rs
  induction rs with
  | nil => intro _; rfl
  | cons r rest ih =>
    intro h
    have hr : ∀ c ∈ r.password, ¬c = ',' := h r (List.mem_cons_self r rest)
    have hrest : ∀ x ∈ rest, ∀ c ∈ x.password, ¬c = ',' :=
      fun x hx => h x (List.mem_cons_of_mem r hx)
    cases rest with
    | nil =>
      rw [List.map_cons, List.map_nil, joinEntries]
      rw [List.map_cons, List.map_nil]
      exact entriesOf_single_pw hr
    | cons r2 rest2 =>
      rw [List.map_cons, List.map_cons, joinEntries]
      rw [show '\n' :: (pwEntryLine r ++ ',' :: '\n'
            :: joinEntries (pwEntryLine r2 :: rest2.map pwEntryLine))
          = ('\n' :: pwEntryLine r) ++ ','
            :: ('\n' :: joinEntries (pwEntryLine r2 :: rest2.map pwEntryLine)) from rfl]
      rw [entriesOf_append_comma, entriesOf_single_pw hr]
      have ih' := ih hrest
      rw [List.map_cons] at ih'
      rw [ih']
      simp

/-- C4: when the `passwords` literal is found, `update_passwords_js`
rewrites the document by replacing the literal text, the rebuilt body
starts with the prior body verbatim (up to its trailing whitespace and
comma run), and the entry list of the rebuilt body is the prior entry
list followed by one `dayN: '<password>'` entry per resource, in resource
order, after the last existing entry. -/
theorem claim_c4_passwords_append :
    ∀ (html : List Char) (rs : List Resource) (cur : List Char),
      reSearchObj pwKeyStr html = some cur →
      (∀ r ∈ rs, ∀ c ∈ r.password, ¬c = ',') →
      update_passwords_js html rs
          = pyReplaceAll (pwTarget cur) (pwReplacementText cur rs) html
      ∧ startsWithL (pyRstripComma (pyRstrip cur)) (pwUpdatedInner cur rs) = true
      ∧ entriesOf (pwUpdatedInner cur rs) = entriesOf cur ++ rs.map pwEntryCore := by
  intro html rs cur hf hpw
  refine ⟨by rw [update_passwords_js, hf], ?_, ?_⟩
  · rw [pwUpdatedInner, List.append_assoc]
    exact startsWithL_self_append _ _
  · rw [pwUpdatedInner]
    rw [show pyRstripComma (pyRstrip cur) ++ ",\n".toList ++ joinEntries (rs.map pwEntryLine)
          = pyRstripComma (pyRstrip cur) ++ ','
            :: ('\n' :: joinEntries (rs.map pwEntryLine)) by simp]
    rw [entriesOf_append_comma, ← entriesOf_strip_junk, entriesOf_pw_block rs hpw]

/-- Witness for C4 on a concrete dashboard document whose table ends with
`day10: 'FOCUS'`, merging the day-11 and day-12 resources. -/
theorem claim_c4_witness :
    update_passwords_js demoPwDoc [res11, res12]
        = pyReplaceAll (pwTarget ("\n            day10: \x27FOCUS\x27\n        ".toList))
            (pwReplacementText ("\n            day10: \x27FOCUS\x27\n        ".toList)
              [res11, res12]) demoPwDoc
    ∧ startsWithL
        (pyRstripComma (pyRstrip ("\n            day10: \x27FOCUS\x27\n        ".toList)))
        (pwUpdatedInner ("\n            day10: \x27FOCUS\x27\n        ".toList)
          [res11, res12]) = true
    ∧ entriesOf (pwUpdatedInner ("\n            day10: \x27FOCUS\x27\n        ".toList)
          [res11, res12])
        = entriesOf ("\n            day10: \x27FOCUS\x27\n        ".toList)
            ++ [res11, res12].map pwEntryCore :=
  claim_c4_passwords_append demoPwDoc [res11, res12]
    ("\n            day10: \x27FOCUS\x27\n        ".toList) (by decide) (by decide)
